import Mathlib

/-!
Verification of the ppt-cleaner core against its natural-language spec.

Two subsystems are embedded from the source:

* the bounded-concurrency batch pipeline of `PagePreview` (`handleCleanAll`,
  `cleanImage`, the session guard and the progress state), embedded from the
  current `PagePreview` component source;
* the annotation engine of `CanvasEditor` (`pushHistory`/`undo`/`redo`, the
  eraser `path:created` handler, the rectangle drag lifecycle, and
  `buildMaskBase64`).

JavaScript promise scheduling is modelled as an explicit small-step system:
the synchronous prefix of `handleCleanAll` runs atomically, and each
completion of an outstanding `cleanImage` call is one atomic event
(`completeStep`) that runs the `.then` handler followed by the `.finally`
handler, exactly as the single-threaded event loop does.
-/

namespace PptCleaner

/-- Per-item status of a `SlideImage`, from `types.ts`
(`'pending' | 'queued' | 'processing' | 'completed' | 'error'`). -/
inductive Status where
  | pending
  | queued
  | processing
  | completed
  | error
deriving DecidableEq, Repr

/-- Work item of the batch pipeline, from the `SlideImage` interface. -/
structure SlideImage where
  id : String
  pageNumber : Nat
  originalBase64 : String
  cleanedBase64 : Option String := none
  status : Status
  errMsg : Option String := none
deriving DecidableEq, Repr

/-- Placeholder used to total-ize list indexing (`getD`); never reachable in
the proved statements because indices are kept in bounds. -/
def dummyImage : SlideImage :=
  { id := "", pageNumber := 0, originalBase64 := "", status := Status.pending }

/-- JavaScript truthiness of an optional string (`undefined`, absent and `""`
are falsy), used for `data.data?.image_base64`. -/
def truthyStr : Option String → Bool
  | some s => s ≠ ""
  | none => false

/-- JavaScript `a || b` on an optional string, used for
`data.message || '处理失败'`. -/
def strOr (o : Option String) (d : String) : String :=
  match o with
  | some s => if s = "" then d else s
  | none => d

/-- Outcome of the `fetch('/api/clean-image')` round trip observed by
`cleanImage`: a thrown error (with `AbortError` distinguished, which is how
the 300s timeout surfaces), a non-OK HTTP response, a body that fails
`JSON.parse`, or a parsed `{success, data?.image_base64, message}` object. -/
inductive FetchOutcome where
  | thrownErr (isAbort : Bool) (msg : String)
  | httpNotOk (statusCode : Nat)
  | badJson
  | apiResponse (success : Bool) (image : Option String) (message : Option String)
deriving DecidableEq, Repr

/-- Model of `cleanImage` from `PagePreview`: total over every outcome of the remote
call (the whole body is wrapped in `try/catch`, so the promise always
resolves), returning the input item with only `status`/`errMsg`/
`cleanedBase64` rewritten. -/
def cleanImage (image : SlideImage) (o : FetchOutcome) : SlideImage :=
  match o with
  | FetchOutcome.httpNotOk code =>
      { image with status := Status.error, errMsg := some ("请求失败: " ++ toString code) }
  | FetchOutcome.badJson =>
      { image with status := Status.error, errMsg := some "服务器返回格式错误" }
  | FetchOutcome.apiResponse success img msg =>
      if success && truthyStr img then
        { image with cleanedBase64 := img, status := Status.completed }
      else
        { image with status := Status.error, errMsg := some (strOr msg "处理失败") }
  | FetchOutcome.thrownErr isAbort msg =>
      if isAbort then
        { image with status := Status.error, errMsg := some "请求超时，请重试" }
      else
        { image with status := Status.error, errMsg := some msg }

/-- The `batchProgress` React state: `{ done, total } | null`. -/
structure Progress where
  done : Nat
  total : Nat
deriving DecidableEq, Repr

/-- The component state shared by every callback of `PagePreview`:
the `images` prop mirrored by `imagesRef`, `sessionRef.current`,
`isProcessing` and `batchProgress`. -/
structure Global where
  images : List SlideImage
  session : String
  isProcessing : Bool
  batchProgress : Option Progress
deriving DecidableEq, Repr

/-- The closure state of one `handleCleanAll` run: the captured
`currentSession` token, the frozen `indicesToProcess` array, the `cursor`
and `inFlight` mutable locals, and (ghost of the event loop, not a code
variable) the outstanding `cleanImage` promises together with the item
snapshot each one was launched with. -/
structure Run where
  token : String
  indices : List Nat
  cursor : Nat
  inFlight : Nat
  outstanding : List (Nat × SlideImage)
deriving DecidableEq, Repr

/-- Placeholder run for total-izing `Option Run` projections in concrete
computations. -/
def dummyRun : Run :=
  { token := "", indices := [], cursor := 0, inFlight := 0, outstanding := [] }

/-- Indices of the outstanding promises of a run. -/
def outIdx (r : Run) : List Nat := r.outstanding.map Prod.fst

/-- Source constant `const maxConcurrent = 3`. -/
def maxConcurrent : Nat := 3

/-- The `.finally` progress updater:
`setBatchProgress((prev) => (prev ? { ...prev, done: prev.done + 1 } : prev))`. -/
def progressInc : Option Progress → Option Progress
  | some p => some { p with done := p.done + 1 }
  | none => none

/-- Model of `finishIfDone` from `handleCleanAll`. -/
def finishIfDone (g : Global) (r : Run) : Global :=
  if g.session ≠ r.token then g
  else if r.cursor < r.indices.length then g
  else if 0 < r.inFlight then g
  else { g with isProcessing := false, batchProgress := none }

/-- The `while (inFlight < maxConcurrent && cursor < indicesToProcess.length)`
loop of `launchNext`, collecting `indicesLaunching` and advancing the two
counters.  The structural `fuel` argument only bounds the iteration count;
each iteration requires `inFlight < maxConcurrent` and increments `inFlight`,
so any `fuel ≥ maxConcurrent - inFlight` (in particular the `maxConcurrent`
used at the call site) never cuts the loop short. -/
def launchLoopAux : Nat → Nat → Nat → List Nat → List Nat × Nat × Nat
  | 0, fl, cu, _ => ([], fl, cu)
  | fuel + 1, fl, cu, indices =>
    if fl < maxConcurrent ∧ cu < indices.length then
      let idx := indices.getD cu 0
      let res := launchLoopAux fuel (fl + 1) (cu + 1) indices
      (idx :: res.1, res.2)
    else ([], fl, cu)

/-- Model of `launchNext` from `handleCleanAll`: bail out if the session token no
longer matches, otherwise fill up to `maxConcurrent` slots from the cursor,
mark the launched items `processing` (clearing their error), and start one
`cleanImage` call per launched index on the snapshot just written to
`imagesRef`. -/
def launchNext (g : Global) (r : Run) : Global × Run :=
  if g.session ≠ r.token then (g, r)
  else
    let res := launchLoopAux maxConcurrent r.inFlight r.cursor r.indices
    let launching := res.1
    let r' : Run := { r with inFlight := res.2.1, cursor := res.2.2 }
    if launching.isEmpty then (g, r')
    else
      let images' := g.images.mapIdx (fun i img =>
        if i ∈ launching then { img with status := Status.processing, errMsg := none }
        else img)
      let g' := { g with images := images' }
      let r'' := { r' with
        outstanding := r'.outstanding ++ launching.map (fun i => (i, images'.getD i dummyImage)) }
      (g', r'')

/-- The `.catch` handler of a batch `cleanImage` call (session-guarded
per-item error update). -/
def catchStep (g : Global) (r : Run) (idx : Nat) (err : String) : Global :=
  if g.session ≠ r.token then g
  else
    { g with images := g.images.mapIdx (fun i img =>
        if i = idx then { img with status := Status.error, errMsg := some err } else img) }

/-- One completion event of the batch run: the `cleanImage` promise launched
for `idx` with snapshot `snap` settles with outcome `o`.  Runs the
session-guarded `.then` update, then the `.finally` block
(`inFlight -= 1`, unguarded progress increment, `launchNext`,
`finishIfDone`), atomically, as the event loop does. -/
def completeStep (g : Global) (r : Run) (idx : Nat) (snap : SlideImage)
    (o : FetchOutcome) : Global × Run :=
  let result := cleanImage snap o
  let g1 :=
    if g.session ≠ r.token then g
    else { g with images := g.images.mapIdx (fun i img => if i = idx then result else img) }
  let r1 : Run := { r with
    inFlight := r.inFlight - 1,
    outstanding := r.outstanding.filter (fun p => p.1 ≠ idx) }
  let g2 := { g1 with batchProgress := progressInc g1.batchProgress }
  let gr := launchNext g2 r1
  (finishIfDone gr.1 gr.2, gr.2)

/-- Selection `indicesToProcess` from `handleCleanAll`:
`images.map((img, idx) => ({img, idx})).filter(({img}) => img.status !== 'completed' && img.status !== 'processing').map(({idx}) => idx)`. -/
def indicesToProcess (images : List SlideImage) : List Nat :=
  ((images.enum.filter (fun p =>
      p.2.status ≠ Status.completed ∧ p.2.status ≠ Status.processing)).map Prod.fst)

/-- The `queuedImages` mapping of `handleCleanAll`: every index selected for
processing is marked `queued` with its error cleared (items already
`processing` are left alone by the inner guard). -/
def markQueued (images : List SlideImage) (idxs : List Nat) : List SlideImage :=
  images.mapIdx (fun i img =>
    if i ∈ idxs then
      if img.status = Status.processing then img
      else { img with status := Status.queued, errMsg := none }
    else img)

/-- The synchronous prefix of `handleCleanAll`: capture the session token,
select the work list, bail out when it is empty, set `isProcessing` and
`batchProgress = {done: 0, total}`, mark the selection `queued`, and run the
first `launchNext`.  Returns the updated component state and the run closure
(`none` when nothing qualified). -/
def handleCleanAll (g : Global) : Global × Option Run :=
  let currentSession := g.session
  let idxs := indicesToProcess g.images
  if idxs.length = 0 then (g, none)
  else
    let g1 := { g with
      isProcessing := true,
      batchProgress := some { done := 0, total := idxs.length },
      images := markQueued g.images idxs }
    let r0 : Run := { token := currentSession, indices := idxs, cursor := 0,
                      inFlight := 0, outstanding := [] }
    let gr := launchNext g1 r0
    (gr.1, some gr.2)

/-- Component state at mount / after the session effect has synchronised
`sessionRef` with the first item's id. -/
def initGlobal (images : List SlideImage) : Global :=
  { images := images,
    session := (images.head?.map (fun img => img.id)).getD "",
    isProcessing := false,
    batchProgress := none }

/-- The `useEffect` watching `images`: replacing the list with a new first
item id aborts the session — `isProcessing` is reset, `batchProgress` is
cleared, and `sessionRef` is rewritten; the `imagesRef` mirror is updated
either way. -/
def sessionEffect (g : Global) (newImages : List SlideImage) : Global :=
  let newSessionId := (newImages.head?.map (fun img => img.id)).getD ""
  if g.session ≠ "" ∧ g.session ≠ newSessionId then
    { g with images := newImages, session := newSessionId,
             isProcessing := false, batchProgress := none }
  else
    { g with images := newImages, session := newSessionId }

/-- Interleaving semantics of one batch run: a trace is a list of settle
events `(idx, outcome)`, each consuming the outstanding promise for `idx`
(in any order, as network completions arrive).  `none` marks an invalid
trace (settling a promise that is not outstanding). -/
def runTrace : Global × Run → List (Nat × FetchOutcome) → Option (Global × Run)
  | s, [] => some s
  | s, (idx, o) :: rest =>
    match s.2.outstanding.find? (fun p => p.1 = idx) with
    | none => none
    | some p => runTrace (completeStep s.1 s.2 idx p.2 o) rest

/-- Number of items currently shown as `processing`. -/
def processingCount (images : List SlideImage) : Nat :=
  images.countP (fun img => img.status = Status.processing)

/-! ## CanvasEditor: snapshot history (`historyRef` / `historyStepRef`) -/

/-- Source constant `const MAX_HISTORY = 50`. -/
def MAX_HISTORY : Nat := 50

/-- The history log and cursor of `CanvasEditor` (`historyRef.current`,
`historyStepRef.current`); `α` stands for one serialized canvas snapshot. -/
structure HistoryState (α : Type) where
  log : List α
  step : Nat
deriving DecidableEq, Repr

/-- Model of `pushHistory`: `next = history.slice(0, step + 1); next.push(snapshot);
if (next.length > MAX_HISTORY) next = next.slice(next.length - MAX_HISTORY);
history = next; step = next.length - 1`. -/
def pushHistory (h : HistoryState α) (snapshot : α) : HistoryState α :=
  let next := h.log.take (h.step + 1) ++ [snapshot]
  let next' := if MAX_HISTORY < next.length then next.drop (next.length - MAX_HISTORY) else next
  { log := next', step := next'.length - 1 }

/-- Model of `undo`: `nextStep = step - 1; if (nextStep < 0) return; step = nextStep`
(then the snapshot at the new cursor is restored to the canvas). -/
def undo (h : HistoryState α) : HistoryState α :=
  if h.step = 0 then h else { h with step := h.step - 1 }

/-- Model of `redo`: `nextStep = step + 1; if (nextStep >= history.length) return;
step = nextStep`. -/
def redo (h : HistoryState α) : HistoryState α :=
  if h.log.length ≤ h.step + 1 then h else { h with step := h.step + 1 }

/-- The canvas state the history cursor denotes (what
`restoreObjectsFromSnapshot(historyRef.current[step])` rebuilds). -/
def currentSnapshot (h : HistoryState α) : Option α := h.log[h.step]?

/-- The history state `CanvasEditor` starts from and resets to on image
load: a single empty snapshot with the cursor on it. -/
def initialHistory (empty : α) : HistoryState α := { log := [empty], step := 0 }

/-! ## CanvasEditor: eraser `path:created` handler -/

/-- The eraser `path:created` handler: collect every canvas object other
than the freshly created erase path that `intersectsWithObject` it, remove
the collected objects and the erase path itself, and `pushHistory` only if
something was collected.  `canvasObjs` is `canvas.getObjects()` at handler
entry (the brush has already added the erase path); `sect` stands for
fabric's geometric `intersectsWithObject`. -/
def eraseOnPathCreated [DecidableEq α] (sect : α → α → Bool)
    (canvasObjs : List α) (path : α) (h : HistoryState (List α)) :
    List α × HistoryState (List α) :=
  let toRemove := canvasObjs.filter (fun o => decide (o ≠ path) && sect o path)
  let afterRemove := canvasObjs.filter (fun o => decide (o ∉ toRemove))
  let objs' := afterRemove.filter (fun o => decide (o ≠ path))
  let h' := if 0 < toRemove.length then pushHistory h objs' else h
  (objs', h')

/-! ## CanvasEditor: rectangle drag lifecycle -/

/-- A scene point (`canvas.getScenePoint`). -/
structure Pt where
  x : Int
  y : Int
deriving DecidableEq, Repr

/-- The mutable box of the in-progress rectangle
(`left`/`top`/`width`/`height` of the fabric `Rect`). -/
structure RectBox where
  left : Int
  top : Int
  width : Int
  height : Int
deriving DecidableEq, Repr

/-- Model of `handleMouseMove` while drawing a rectangle: the box is the min/max box
of the drag start point and the current pointer
(`left = min, top = min, width = |dx|, height = |dy|`). -/
def moveRectUpdate (start pointer : Pt) : RectBox :=
  { left := min start.x pointer.x,
    top := min start.y pointer.y,
    width := |pointer.x - start.x|,
    height := |pointer.y - start.y| }

/-- Model of `handleMouseUp` at the end of a rectangle draw.  The canvas currently
holds `objs ++ [rect]` (the rect was added on mouse-down); a rect smaller
than 5 in either dimension is removed with no commit, otherwise it stays
and `pushHistory` snapshots the canvas. -/
def handleRectMouseUp (objs : List RectBox) (rect : RectBox)
    (h : HistoryState (List RectBox)) : List RectBox × HistoryState (List RectBox) :=
  if rect.width < 5 ∨ rect.height < 5 then (objs, h)
  else (objs ++ [rect], pushHistory h (objs ++ [rect]))

/-! ## CanvasEditor: `buildMaskBase64` -/

/-- Kind of a committed fabric object on this canvas (brush strokes are
`path`s, rectangle marks are `rect`s). -/
inductive ShapeKind where
  | path
  | rect
deriving DecidableEq, Repr

/-- A fabric object as `buildMaskBase64` sees it: its kind plus the four
style fields the function saves and restores. -/
structure FabObject where
  kind : ShapeKind
  fill : String
  stroke : String
  strokeWidth : Int
  opacity : ℚ
deriving DecidableEq, Repr

/-- The live canvas state `buildMaskBase64` mutates and must restore. -/
structure MaskCanvas where
  backgroundImage : Option (Nat × Nat)
  backgroundColor : String
  viewportTransform : List ℚ
  objects : List FabObject
  activeObject : Option Nat
deriving DecidableEq, Repr

/-- Where (if anywhere) rendering throws during `buildMaskBase64`:
`canvas.renderAll()` or `canvas.toDataURL(...)`. -/
inductive RenderFail where
  | ok
  | renderAllThrows
  | toDataURLThrows
deriving DecidableEq, Repr

/-- The white-out applied inside `buildMaskBase64`'s `try`: paths get
`stroke: 'white', opacity: 1`; rects get
`fill: 'white', stroke: 'white', opacity: 1`. -/
def whiten (o : FabObject) : FabObject :=
  match o.kind with
  | ShapeKind.path => { o with stroke := "white", opacity := 1 }
  | ShapeKind.rect => { o with fill := "white", stroke := "white", opacity := 1 }

/-- The style quadruple `buildMaskBase64` saves per object
(`fill`, `stroke`, `strokeWidth`, `opacity`). -/
def styleOf (o : FabObject) : String × String × Int × ℚ :=
  (o.fill, o.stroke, o.strokeWidth, o.opacity)

/-- The restore loop of the outer `finally`: write each saved style
quadruple back onto its object. -/
def restoreStyles (objs : List FabObject) (styles : List (String × String × Int × ℚ)) :
    List FabObject :=
  (objs.zip styles).map (fun p =>
    { p.1 with fill := p.2.1, stroke := p.2.2.1, strokeWidth := p.2.2.2.1,
               opacity := p.2.2.2.2 })

/-- Identity transform `canvas.setViewportTransform([1, 0, 0, 1, 0, 0])`. -/
def identityVpt : List ℚ := [1, 0, 0, 1, 0, 0]

/-- Combinator for `try/finally` over explicit canvas state: run the body, then apply the
finalizer to the resulting state whether the body returned or threw, and
pass the body's outcome through. -/
def tryFinallyM (body : MaskCanvas → Except Unit β × MaskCanvas)
    (fin : MaskCanvas → MaskCanvas) (c : MaskCanvas) : Except Unit β × MaskCanvas :=
  let rc := body c
  (rc.1, fin rc.2)

/-- Model of `buildMaskBase64`: early-return `null` without a background image or
with zero objects; otherwise save background/styles, black out the
background, whiten every object, reset the viewport transform to identity
inside a nested `try/finally`, capture, and restore everything in the
`finally` blocks.  The captured data URL is modelled as the canvas state at
capture time (`toDataURL` is a pure function of the rendered pixels, which
that state determines); `fail` selects the exit path taken. -/
def buildMaskBase64 (c : MaskCanvas) (fail : RenderFail) :
    Except Unit (Option MaskCanvas) × MaskCanvas :=
  match c.backgroundImage with
  | none => (Except.ok none, c)
  | some _ =>
    if c.objects.isEmpty then (Except.ok none, c)
    else
      let originalBg := c.backgroundImage
      let originalBgColor := c.backgroundColor
      let originalStyles := c.objects.map styleOf
      tryFinallyM
        (fun c0 =>
          let c1 := { c0 with
            activeObject := none,
            backgroundImage := none,
            backgroundColor := "black",
            objects := c0.objects.map whiten }
          match fail with
          | RenderFail.renderAllThrows => (Except.error (), c1)
          | _ =>
            let originalVpt := c1.viewportTransform
            tryFinallyM
              (fun c2 =>
                let c3 := { c2 with viewportTransform := identityVpt }
                match fail with
                | RenderFail.toDataURLThrows => (Except.error (), c3)
                | _ => (Except.ok (some c3), c3))
              (fun c4 => { c4 with viewportTransform := originalVpt })
              c1)
        (fun c5 => { c5 with
          backgroundImage := originalBg,
          backgroundColor := originalBgColor,
          objects := restoreStyles c5.objects originalStyles })
        c

/-- Invariant core of one live batch run: the session still matches, the
`inFlight` counter counts the outstanding promises and is capped, the
indices are distinct and in range, outstanding promises come from already
consumed cursor positions, and an item shows `processing` exactly when its
promise is outstanding. -/
structure InvCore (g : Global) (r : Run) : Prop where
  sess : g.session = r.token
  flEq : r.inFlight = r.outstanding.length
  flLe : r.inFlight ≤ maxConcurrent
  cursorLe : r.cursor ≤ r.indices.length
  idxNodup : r.indices.Nodup
  idxLt : ∀ i ∈ r.indices, i < g.images.length
  outNodup : (outIdx r).Nodup
  outSub : ∀ i ∈ outIdx r, i ∈ r.indices.take r.cursor
  procIff : ∀ i, i < g.images.length →
    (((g.images.getD i dummyImage).status = Status.processing) ↔ i ∈ outIdx r)

/-- Full invariant: the core plus saturation — the pool is refilled, so the
counter is below the cap only when the cursor is exhausted. -/
structure Inv (g : Global) (r : Run) extends InvCore g r : Prop where
  sat : r.inFlight < maxConcurrent → r.cursor = r.indices.length

/-- Two component states that agree on everything except possibly the item
at index `idx`. -/
structure AgreeExcept (idx : Nat) (gA gB : Global) : Prop where
  sess : gA.session = gB.session
  proc : gA.isProcessing = gB.isProcessing
  prog : gA.batchProgress = gB.batchProgress
  len : gA.images.length = gB.images.length
  img : ∀ j, j ≠ idx → gA.images.getD j dummyImage = gB.images.getD j dummyImage

/-- Concrete four-item batch used to witness C2. -/
def w2Images : List SlideImage :=
  [ { id := "s1", pageNumber := 1, originalBase64 := "a", status := Status.pending },
    { id := "s2", pageNumber := 2, originalBase64 := "b", status := Status.pending },
    { id := "s3", pageNumber := 3, originalBase64 := "c", status := Status.pending },
    { id := "s4", pageNumber := 4, originalBase64 := "d", status := Status.pending } ]

/-- Out-of-order completions (1 before 0), with failing outcomes mixed in. -/
def w2Trace : List (Nat × FetchOutcome) :=
  [ (1, FetchOutcome.apiResponse true (some "x") none),
    (0, FetchOutcome.badJson),
    (3, FetchOutcome.thrownErr true ""),
    (2, FetchOutcome.apiResponse true (some "y") none) ]

/-- State right after the synchronous prefix of `handleCleanAll`. -/
def w2Start : Global × Option Run := handleCleanAll (initGlobal w2Images)

/-- State after all four completions. -/
def w2Final : Global × Run :=
  (runTrace (w2Start.1, w2Start.2.getD dummyRun) w2Trace).getD (initGlobal [], dummyRun)

/-- Two-item list for the C3 witness: item 0 already completed, item 1 pending. -/
def w3Images : List SlideImage :=
  [ { id := "c1", pageNumber := 1, originalBase64 := "a", cleanedBase64 := some "z",
      status := Status.completed },
    { id := "c2", pageNumber := 2, originalBase64 := "b", status := Status.pending,
      errMsg := some "old" } ]

/-! ## Helper lemmas -/

theorem getD_mapIdx (l : List α) (f : Nat → α → α) (i : Nat) (d : α) :
    (l.mapIdx f).getD i d = if i < l.length then f i (l.getD i d) else d := by
  induction l generalizing f i with
  | nil => simp [List.getD]
  | cons a t ih =>
    rw [List.mapIdx_cons]
    cases i with
    | zero => simp
    | succ n =>
      simp only [List.getD_cons_succ]
      rw [ih]
      simp [Nat.succ_lt_succ_iff]

/-! ## C5 / C6 history lemmas -/

theorem undo_eq {α : Type} (h : HistoryState α) : undo h = ⟨h.log, h.step - 1⟩ := by
  cases h with
  | mk log step =>
    cases step with
    | zero => simp [undo]
    | succ n => simp [undo]

theorem undo_iterate {α : Type} (n : Nat) (h : HistoryState α) :
    undo^[n] h = ⟨h.log, h.step - n⟩ := by
  induction n generalizing h with
  | zero => simp
  | succ m ih =>
    rw [Function.iterate_succ_apply, undo_eq, ih]
    simp only [HistoryState.mk.injEq, true_and]
    omega

theorem redo_iterate {α : Type} (n : Nat) (L : List α) (m : Nat)
    (hlt : m + n < L.length) : redo^[n] ⟨L, m⟩ = ⟨L, m + n⟩ := by
  induction n generalizing m with
  | zero => simp
  | succ k ih =>
    rw [Function.iterate_succ_apply]
    have h1 : redo (⟨L, m⟩ : HistoryState α) = ⟨L, m + 1⟩ := by
      have : ¬ L.length ≤ m + 1 := by omega
      simp [redo, this]
    rw [h1, ih (m + 1) (by omega)]
    simp only [HistoryState.mk.injEq, true_and]
    omega

theorem pushHistory_eq_of_le {α : Type} (h : HistoryState α) (s : α)
    (hstep : h.step < h.log.length) (hle : h.step + 2 ≤ MAX_HISTORY) :
    pushHistory h s = ⟨h.log.take (h.step + 1) ++ [s], h.step + 1⟩ := by
  have hlen : (h.log.take (h.step + 1) ++ [s]).length = h.step + 2 := by
    simp [List.length_take]; omega
  simp only [pushHistory]
  rw [if_neg (by rw [hlen]; omega)]
  simp [hlen]

theorem pushHistory_eq_of_gt {α : Type} (h : HistoryState α) (s : α)
    (hstep : h.step < h.log.length) (hcap : h.log.length ≤ MAX_HISTORY)
    (hgt : MAX_HISTORY < h.step + 2) :
    pushHistory h s = ⟨(h.log.take (h.step + 1) ++ [s]).drop 1, MAX_HISTORY - 1⟩ := by
  have hlen : (h.log.take (h.step + 1) ++ [s]).length = h.step + 2 := by
    simp [List.length_take]; omega
  have hone : h.step + 2 - MAX_HISTORY = 1 := by unfold MAX_HISTORY at *; omega
  simp only [pushHistory]
  rw [if_pos (by rw [hlen]; omega)]
  simp only [hlen, hone, HistoryState.mk.injEq, true_and, List.length_drop]
  unfold MAX_HISTORY at *; omega

theorem pushHistory_at_tail {α : Type} (L : List α) (s : α) (hne : L ≠ [])
    (hlen : L.length + 1 ≤ MAX_HISTORY) :
    pushHistory ⟨L, L.length - 1⟩ s = ⟨L ++ [s], L.length⟩ := by
  have hpos : 0 < L.length := List.length_pos.mpr hne
  have h1 := pushHistory_eq_of_le ⟨L, L.length - 1⟩ s (by simpa using by omega)
    (by simp only; omega)
  rw [h1]
  have htake : L.length - 1 + 1 = L.length := by omega
  simp [htake]

theorem foldl_push {α : Type} (snaps : List α) : ∀ (L : List α), L ≠ [] →
    L.length + snaps.length ≤ MAX_HISTORY →
    snaps.foldl pushHistory ⟨L, L.length - 1⟩ = ⟨L ++ snaps, L.length + snaps.length - 1⟩ := by
  induction snaps with
  | nil => intro L hne hlen; simp
  | cons s rest ih =>
    intro L hne hlen
    simp only [List.foldl_cons]
    rw [pushHistory_at_tail L s hne (by simp at hlen; omega)]
    have h1 : L.length = (L ++ [s]).length - 1 := by simp
    rw [h1]
    rw [ih (L ++ [s]) (by simp) (by simp at hlen ⊢; omega)]
    simp only [HistoryState.mk.injEq, List.append_assoc, List.singleton_append,
      List.length_append, List.length_singleton, List.length_cons, true_and]
    omega

/-- C5: `pushHistory` truncates strictly after the cursor, appends, moves the
cursor to the new tail; on overflow past `MAX_HISTORY = 50` it evicts exactly
one entry from the front leaving length exactly 50 with the cursor on the
appended state; and the concrete scenario commit(A), commit(B), undo,
commit(C) from the initial single empty state yields `[empty, A, C]` with
`redo` a no-op. -/
theorem pushHistory_commit_contract {α : Type} (h : HistoryState α) (s : α)
    (hstep : h.step < h.log.length) (hcap : h.log.length ≤ MAX_HISTORY) :
    (h.step + 2 ≤ MAX_HISTORY → (pushHistory h s).log = h.log.take (h.step + 1) ++ [s]) ∧
    (MAX_HISTORY < h.step + 2 →
      (pushHistory h s).log = (h.log.take (h.step + 1) ++ [s]).drop 1 ∧
      (pushHistory h s).log.length = MAX_HISTORY) ∧
    (pushHistory h s).step = (pushHistory h s).log.length - 1 ∧
    currentSnapshot (pushHistory h s) = some s ∧
    (let h0 : HistoryState (List Nat) := initialHistory []
     let hC := pushHistory (undo (pushHistory (pushHistory h0 [1]) [2])) [3]
     hC.log = [[], [1], [3]] ∧ hC.step = 2 ∧ redo hC = hC) := by
  have hlentake : (h.log.take (h.step + 1)).length = h.step + 1 := by
    simp [List.length_take]; omega
  have hlennext : (h.log.take (h.step + 1) ++ [s]).length = h.step + 2 := by
    simp [hlentake]
  refine ⟨?_, ?_, ?_, ?_, ?_⟩
  · intro hle
    rw [pushHistory_eq_of_le h s hstep hle]
  · intro hgt
    rw [pushHistory_eq_of_gt h s hstep hcap hgt]
    refine ⟨rfl, ?_⟩
    simp only [List.length_drop, hlennext]
    unfold MAX_HISTORY at *; omega
  · by_cases hle : h.step + 2 ≤ MAX_HISTORY
    · rw [pushHistory_eq_of_le h s hstep hle]
      simp [hlennext]
    · rw [pushHistory_eq_of_gt h s hstep hcap (by omega)]
      simp only [List.length_drop, hlennext]
      unfold MAX_HISTORY at *; omega
  · by_cases hle : h.step + 2 ≤ MAX_HISTORY
    · rw [pushHistory_eq_of_le h s hstep hle]
      simp only [currentSnapshot]
      rw [show h.step + 1 = (h.log.take (h.step + 1)).length from hlentake.symm]
      simp
    · rw [pushHistory_eq_of_gt h s hstep hcap (by omega)]
      simp only [currentSnapshot]
      rw [List.getElem?_drop]
      have h50 : 1 + (MAX_HISTORY - 1) = (h.log.take (h.step + 1)).length := by
        rw [hlentake]; unfold MAX_HISTORY at *; omega
      rw [h50]
      simp
  · refine ⟨by decide, by decide, by decide⟩

/-- Witness for the C5 contract at a concrete history. -/
theorem pushHistory_commit_contract_witness :
    (pushHistory (⟨[[0], [1], [2]], 1⟩ : HistoryState (List Nat)) [7]).log = [[0], [1], [7]] ∧
    currentSnapshot (pushHistory (⟨[[0], [1], [2]], 1⟩ : HistoryState (List Nat)) [7]) =
      some [7] := by
  have h := pushHistory_commit_contract (⟨[[0], [1], [2]], 1⟩ : HistoryState (List Nat)) [7]
    (by decide) (by decide)
  exact ⟨by rw [h.1 (by decide)]; decide, h.2.2.2.1⟩

/-- C6 (amended): the undo/redo round trip holds for every sequence of `N`
commits with `N ≤ MAX_HISTORY - 1 = 49` (at `N = 50` the initial empty state
is evicted): `undo` iterated `N` times restores the initial empty snapshot
with the cursor at 0 and a further `undo` a no-op, and `redo` iterated `N`
times restores the final committed state with a further `redo` a no-op. -/
theorem undo_redo_round_trip {α : Type} (empty : α) (snaps : List α)
    (hN : snaps.length ≤ MAX_HISTORY - 1) :
    currentSnapshot (undo^[snaps.length] (snaps.foldl pushHistory (initialHistory empty))) =
      some empty ∧
    (undo^[snaps.length] (snaps.foldl pushHistory (initialHistory empty))).step = 0 ∧
    undo (undo^[snaps.length] (snaps.foldl pushHistory (initialHistory empty))) =
      undo^[snaps.length] (snaps.foldl pushHistory (initialHistory empty)) ∧
    redo^[snaps.length] (undo^[snaps.length] (snaps.foldl pushHistory (initialHistory empty))) =
      snaps.foldl pushHistory (initialHistory empty) ∧
    redo (snaps.foldl pushHistory (initialHistory empty)) =
      snaps.foldl pushHistory (initialHistory empty) := by
  have hfold : snaps.foldl pushHistory (initialHistory empty) =
      ⟨empty :: snaps, snaps.length⟩ := by
    have := foldl_push snaps [empty] (by simp)
      (by simp; unfold MAX_HISTORY at *; omega)
    simpa [initialHistory] using this
  rw [hfold]
  rw [undo_iterate]
  simp only [Nat.sub_self]
  refine ⟨by simp [currentSnapshot], by trivial, by simp [undo], ?_, ?_⟩
  · rw [redo_iterate snaps.length (empty :: snaps) 0 (by simp)]
    simp
  · simp [redo]

/-- Witness for the C6 round trip at `N = 2`. -/
theorem undo_redo_round_trip_witness :
    currentSnapshot (undo^[2] ([[1], [2]].foldl pushHistory (initialHistory ([] : List Nat)))) =
      some [] ∧
    redo^[2] (undo^[2] ([[1], [2]].foldl pushHistory (initialHistory ([] : List Nat)))) =
      [[1], [2]].foldl pushHistory (initialHistory ([] : List Nat)) := by
  have h := undo_redo_round_trip ([] : List Nat) [[1], [2]] (by decide)
  exact ⟨h.1, h.2.2.2.1⟩

set_option maxRecDepth 4000 in
/-- C6 counterexample at `N = MAX_HISTORY = 50`: committing 50 snapshots
(`1..50`, with the empty snapshot modelled as `0`) from the initial state
evicts the initial empty snapshot, so 50 undos land on the first commit,
not the empty state. -/
theorem undo_redo_cap_counterexample :
    currentSnapshot
        (undo^[50] (((List.range 50).map (fun k => k + 1)).foldl pushHistory
          (initialHistory (0 : Nat)))) = some 1 ∧
    (1 : Nat) ≠ 0 := by decide

/-- C7: finalizing an eraser stroke removes exactly the shapes that
geometrically intersect the erase path, always removes the erase path itself
(it never becomes a committed shape), and commits to history exactly when at
least one shape was removed; a zero-intersection erase leaves both the shape
set and the history untouched.  `hfresh` records that the freshly created
fabric path object is distinct from every pre-existing shape. -/
theorem eraser_semantics {α : Type} [DecidableEq α] (sect : α → α → Bool)
    (objs : List α) (path : α) (h : HistoryState (List α)) (hfresh : path ∉ objs) :
    (∀ o ∈ objs, sect o path = true → o ∉ (eraseOnPathCreated sect (objs ++ [path]) path h).1) ∧
    path ∉ (eraseOnPathCreated sect (objs ++ [path]) path h).1 ∧
    (eraseOnPathCreated sect (objs ++ [path]) path h).1 = objs.filter (fun o => !(sect o path)) ∧
    ((∃ o ∈ objs, sect o path = true) →
      (eraseOnPathCreated sect (objs ++ [path]) path h).2 =
        pushHistory h (eraseOnPathCreated sect (objs ++ [path]) path h).1) ∧
    ((∀ o ∈ objs, sect o path = false) →
      (eraseOnPathCreated sect (objs ++ [path]) path h).2 = h ∧
      (eraseOnPathCreated sect (objs ++ [path]) path h).1 = objs) := by
  have hne : ∀ a ∈ objs, a ≠ path := fun a ha hEq => hfresh (hEq ▸ ha)
  have hToRemove : (objs ++ [path]).filter (fun o => decide (o ≠ path) && sect o path) =
      objs.filter (fun o => sect o path) := by
    rw [List.filter_append]
    have h1 : List.filter (fun o => decide (o ≠ path) && sect o path) [path] = [] := by
      simp
    rw [h1, List.append_nil]
    apply List.filter_congr
    intro a ha
    simp [hne a ha]
  have hPathNotRemoved : path ∉ objs.filter (fun o => sect o path) := by
    intro hmem
    exact hfresh (List.mem_of_mem_filter hmem)
  have hAfter : (objs ++ [path]).filter
      (fun o => decide (o ∉ objs.filter (fun o => sect o path))) =
      objs.filter (fun o => !(sect o path)) ++ [path] := by
    rw [List.filter_append]
    have h1 : List.filter (fun o => decide (o ∉ objs.filter (fun o => sect o path))) [path] =
        [path] := by
      simp only [List.filter_cons, List.filter_nil]
      rw [if_pos (by simpa using Or.inl hfresh)]
    rw [h1]
    congr 1
    apply List.filter_congr
    intro a ha
    by_cases hs : sect a path
    · simp [List.mem_filter, hs, ha]
    · simp [List.mem_filter, hs]
  have hObjs' : (objs.filter (fun o => !(sect o path)) ++ [path]).filter
      (fun o => decide (o ≠ path)) = objs.filter (fun o => !(sect o path)) := by
    rw [List.filter_append]
    have h1 : List.filter (fun o => decide (o ≠ path)) [path] = [] := by simp
    rw [h1, List.append_nil]
    apply List.filter_eq_self.mpr
    intro a ha
    simp [hne a (List.mem_of_mem_filter ha)]
  have hmain : eraseOnPathCreated sect (objs ++ [path]) path h =
      (objs.filter (fun o => !(sect o path)),
       if 0 < (objs.filter (fun o => sect o path)).length then
         pushHistory h (objs.filter (fun o => !(sect o path))) else h) := by
    simp only [eraseOnPathCreated]
    rw [hToRemove, hAfter, hObjs']
  rw [hmain]
  refine ⟨?_, ?_, rfl, ?_, ?_⟩
  · intro o ho hs hmem
    have := List.of_mem_filter hmem
    simp [hs] at this
  · intro hmem
    exact hfresh (List.mem_of_mem_filter hmem)
  · rintro ⟨o, ho, hs⟩
    have hmem : o ∈ objs.filter (fun o => sect o path) :=
      List.mem_filter.mpr ⟨ho, hs⟩
    have hpos : 0 < (objs.filter (fun o => sect o path)).length :=
      List.length_pos.mpr (fun hnil => by simp [hnil] at hmem)
    simp [hpos]
  · intro hall
    have hnil : objs.filter (fun o => sect o path) = [] := by
      apply List.filter_eq_nil_iff.mpr
      intro a ha
      simp [hall a ha]
    have hself : objs.filter (fun o => !(sect o path)) = objs := by
      apply List.filter_eq_self.mpr
      intro a ha
      simp [hall a ha]
    simp [hnil, hself]

/-- Witness for the eraser semantics on a concrete canvas: a stroke
intersecting shape `1` removes it, keeps shape `2`, drops the path `9`, and
commits once. -/
theorem eraser_semantics_witness :
    (eraseOnPathCreated (fun a _ => decide (a = 1)) ([1, 2] ++ [9]) 9
        (initialHistory ([] : List Nat))).1 = [2] ∧
    (eraseOnPathCreated (fun a _ => decide (a = 1)) ([1, 2] ++ [9]) 9
        (initialHistory ([] : List Nat))).2 =
      pushHistory (initialHistory ([] : List Nat)) [2] := by
  have h := eraser_semantics (fun a _ => decide (a = 1)) [1, 2] 9
    (initialHistory ([] : List Nat)) (by decide)
  constructor
  · rw [h.2.2.1]; decide
  · have h4 := h.2.2.2.1 ⟨1, by decide, by decide⟩
    rw [h4, h.2.2.1]; decide

/-- C8: during a rectangle drag the in-progress box is the min/max box of
the start point and the pointer (non-negative width/height in every drag
direction), and on pointer-up a box under the 5×5 threshold is removed from
the canvas with no history commit while a box meeting it stays and commits
exactly once. -/
theorem rectangle_min_size (start pointer : Pt) (objs : List RectBox) (rect : RectBox)
    (h : HistoryState (List RectBox)) :
    (0 ≤ (moveRectUpdate start pointer).width ∧
     0 ≤ (moveRectUpdate start pointer).height ∧
     (moveRectUpdate start pointer).left = min start.x pointer.x ∧
     (moveRectUpdate start pointer).top = min start.y pointer.y ∧
     (moveRectUpdate start pointer).left + (moveRectUpdate start pointer).width =
       max start.x pointer.x ∧
     (moveRectUpdate start pointer).top + (moveRectUpdate start pointer).height =
       max start.y pointer.y) ∧
    (rect.width < 5 ∨ rect.height < 5 → handleRectMouseUp objs rect h = (objs, h)) ∧
    (5 ≤ rect.width ∧ 5 ≤ rect.height →
      handleRectMouseUp objs rect h = (objs ++ [rect], pushHistory h (objs ++ [rect]))) := by
  refine ⟨⟨?_, ?_, rfl, rfl, ?_, ?_⟩, ?_, ?_⟩
  · exact abs_nonneg _
  · exact abs_nonneg _
  · have hx := max_sub_min_eq_abs start.x pointer.x
    simp only [moveRectUpdate]
    linarith [hx]
  · have hy := max_sub_min_eq_abs start.y pointer.y
    simp only [moveRectUpdate]
    linarith [hy]
  · intro hsmall
    simp [handleRectMouseUp, hsmall]
  · intro hbig
    have : ¬ (rect.width < 5 ∨ rect.height < 5) := by omega
    simp [handleRectMouseUp, this]

/-- Witness for the rectangle threshold on concrete boxes: a 3×10 drag is
discarded without a commit, a 6×7 drag stays and commits. -/
theorem rectangle_min_size_witness :
    handleRectMouseUp ([] : List RectBox) ⟨0, 0, 3, 10⟩ (initialHistory []) =
      ([], initialHistory []) ∧
    handleRectMouseUp ([] : List RectBox) ⟨0, 0, 6, 7⟩ (initialHistory []) =
      ([⟨0, 0, 6, 7⟩], pushHistory (initialHistory []) [⟨0, 0, 6, 7⟩]) :=
  ⟨(rectangle_min_size ⟨0, 0⟩ ⟨0, 0⟩ [] ⟨0, 0, 3, 10⟩ (initialHistory [])).2.1
      (Or.inl (by decide)),
   (rectangle_min_size ⟨0, 0⟩ ⟨0, 0⟩ [] ⟨0, 0, 6, 7⟩ (initialHistory [])).2.2
      ⟨by decide, by decide⟩⟩

theorem restoreStyles_map_whiten (objs : List FabObject) :
    restoreStyles (objs.map whiten) (objs.map styleOf) = objs := by
  induction objs with
  | nil => rfl
  | cons o t ih =>
    simp only [List.map_cons, restoreStyles, List.zip_cons_cons, List.map_cons] at ih ⊢
    rw [ih]
    congr 1
    cases o with
    | mk k f s w p => cases k <;> simp [whiten, styleOf]

/-- C9: `buildMaskBase64` captures with a black background, every object
recolored to opaque white, and the viewport transform reset to identity; and
on every exit path — the early `null` returns, a throw during `renderAll`, a
throw during `toDataURL`, and the normal return — the background image,
background color, every object's fill/stroke/strokeWidth/opacity, and the
viewport transform end up restored to their pre-call values. -/
theorem buildMask_restore_all_paths (c : MaskCanvas) (fail : RenderFail) :
    ((buildMaskBase64 c fail).2.backgroundImage = c.backgroundImage ∧
     (buildMaskBase64 c fail).2.backgroundColor = c.backgroundColor ∧
     (buildMaskBase64 c fail).2.viewportTransform = c.viewportTransform ∧
     (buildMaskBase64 c fail).2.objects = c.objects) ∧
    (∀ bg, c.backgroundImage = some bg → ¬ c.objects.isEmpty →
      (buildMaskBase64 c RenderFail.ok).1 =
        Except.ok (some { backgroundImage := none, backgroundColor := "black",
                          viewportTransform := identityVpt,
                          objects := c.objects.map whiten, activeObject := none })) := by
  constructor
  · cases hbg : c.backgroundImage with
    | none => simp [buildMaskBase64, hbg]
    | some bg =>
      by_cases hobj : c.objects.isEmpty
      · simp [buildMaskBase64, hbg, hobj]
      · cases fail <;>
          simp [buildMaskBase64, hbg, hobj, tryFinallyM, restoreStyles_map_whiten]
  · intro bg hbg hobj
    simp [buildMaskBase64, hbg, hobj, tryFinallyM]

/-- Witness for the `buildMaskBase64` restore/capture contract at a concrete
one-object canvas. -/
theorem buildMask_restore_all_paths_witness :
    (buildMaskBase64
        { backgroundImage := some (4, 3), backgroundColor := "#F2F2F7",
          viewportTransform := [2, 0, 0, 2, 1, 1],
          objects := [{ kind := ShapeKind.rect, fill := "rgba(255, 0, 0, 0.3)",
                        stroke := "rgba(255, 0, 0, 0.8)", strokeWidth := 2,
                        opacity := 1 }],
          activeObject := none } RenderFail.ok).1 =
      Except.ok (some { backgroundImage := none, backgroundColor := "black",
                        viewportTransform := identityVpt,
                        objects := [{ kind := ShapeKind.rect, fill := "white",
                                      stroke := "white", strokeWidth := 2,
                                      opacity := 1 }],
                        activeObject := none }) := by
  have h := (buildMask_restore_all_paths
    { backgroundImage := some (4, 3), backgroundColor := "#F2F2F7",
      viewportTransform := [2, 0, 0, 2, 1, 1],
      objects := [{ kind := ShapeKind.rect, fill := "rgba(255, 0, 0, 0.3)",
                    stroke := "rgba(255, 0, 0, 0.8)", strokeWidth := 2,
                    opacity := 1 }],
      activeObject := none } RenderFail.ok).2 (4, 3) rfl (by decide)
  rw [h]
  rfl

/-! ## Batch scheduler lemmas -/

theorem launchNext_fst_session (g : Global) (r : Run) :
    (launchNext g r).1.session = g.session := by
  unfold launchNext
  by_cases hs : g.session ≠ r.token
  · simp [hs]
  · by_cases hl : (launchLoopAux maxConcurrent r.inFlight r.cursor r.indices).1.isEmpty <;>
      simp [hs, hl]

theorem launchNext_fst_isProcessing (g : Global) (r : Run) :
    (launchNext g r).1.isProcessing = g.isProcessing := by
  unfold launchNext
  by_cases hs : g.session ≠ r.token
  · simp [hs]
  · by_cases hl : (launchLoopAux maxConcurrent r.inFlight r.cursor r.indices).1.isEmpty <;>
      simp [hs, hl]

theorem launchNext_fst_batchProgress (g : Global) (r : Run) :
    (launchNext g r).1.batchProgress = g.batchProgress := by
  unfold launchNext
  by_cases hs : g.session ≠ r.token
  · simp [hs]
  · by_cases hl : (launchLoopAux maxConcurrent r.inFlight r.cursor r.indices).1.isEmpty <;>
      simp [hs, hl]

theorem launchNext_snd_token (g : Global) (r : Run) :
    (launchNext g r).2.token = r.token := by
  unfold launchNext
  by_cases hs : g.session ≠ r.token
  · simp [hs]
  · by_cases hl : (launchLoopAux maxConcurrent r.inFlight r.cursor r.indices).1.isEmpty <;>
      simp [hs, hl]

theorem launchNext_snd_indices (g : Global) (r : Run) :
    (launchNext g r).2.indices = r.indices := by
  unfold launchNext
  by_cases hs : g.session ≠ r.token
  · simp [hs]
  · by_cases hl : (launchLoopAux maxConcurrent r.inFlight r.cursor r.indices).1.isEmpty <;>
      simp [hs, hl]

theorem finishIfDone_preserved (g : Global) (r : Run) :
    (finishIfDone g r).images = g.images ∧ (finishIfDone g r).session = g.session := by
  unfold finishIfDone
  split_ifs <;> simp

theorem finishIfDone_batchProgress_of_none (g : Global) (r : Run)
    (h : g.batchProgress = none) : (finishIfDone g r).batchProgress = none := by
  unfold finishIfDone
  split_ifs <;> simp [h]

theorem launchNext_stale (g : Global) (r : Run) (hstale : g.session ≠ r.token) :
    launchNext g r = (g, r) := by
  unfold launchNext
  simp [hstale]

theorem finishIfDone_stale (g : Global) (r : Run) (hstale : g.session ≠ r.token) :
    finishIfDone g r = g := by
  unfold finishIfDone
  simp [hstale]

/-- C10: the per-completion progress update maps `null` to `null` and
`{done, total}` to `{done + 1, total}`; consequently once `batchProgress`
has been cleared to `null` (batch finalization or session replacement), any
later-arriving completion event of an old run — whose progress increment is
not session-guarded — leaves it `null`. -/
theorem progress_cannot_resurrect :
    (progressInc none = none ∧
     ∀ d t : Nat, progressInc (some ⟨d, t⟩) = some ⟨d + 1, t⟩) ∧
    (∀ (g : Global) (r : Run) (idx : Nat) (snap : SlideImage) (o : FetchOutcome),
      g.batchProgress = none → (completeStep g r idx snap o).1.batchProgress = none) := by
  refine ⟨⟨rfl, fun d t => rfl⟩, ?_⟩
  intro g r idx snap o hnone
  unfold completeStep
  apply finishIfDone_batchProgress_of_none
  rw [launchNext_fst_batchProgress]
  by_cases hs : g.session ≠ r.token <;> simp [hs, hnone, progressInc]

/-- Witness for C10: a stale completion event arriving after the progress
state was cleared leaves it cleared. -/
theorem progress_cannot_resurrect_witness :
    ({ images := [], session := "new", isProcessing := false,
       batchProgress := none } : Global).batchProgress = none ∧
    (completeStep
      { images := [], session := "new", isProcessing := false, batchProgress := none }
      dummyRun 0 dummyImage FetchOutcome.badJson).1.batchProgress = none :=
  ⟨rfl, progress_cannot_resurrect.2
    { images := [], session := "new", isProcessing := false, batchProgress := none }
    dummyRun 0 dummyImage FetchOutcome.badJson rfl⟩

/-- C1 (amended): for a superseded run (current session differs from the
captured token), the per-item completion update, the per-item error update
(`.catch`), `finishIfDone` and `launchNext` are all no-ops — in particular
no item of the new list changes status — but the `.finally` progress update
runs unguarded: the whole completion event rewrites the component state only
by `progressInc` on `batchProgress`. -/
theorem session_guard_amended (g : Global) (r : Run) (idx : Nat)
    (snap : SlideImage) (o : FetchOutcome) (hstale : g.session ≠ r.token) :
    (completeStep g r idx snap o).1 =
      { g with batchProgress := progressInc g.batchProgress } ∧
    (∀ err, catchStep g r idx err = g) ∧
    finishIfDone g r = g ∧
    launchNext g r = (g, r) := by
  refine ⟨?_, ?_, finishIfDone_stale g r hstale, launchNext_stale g r hstale⟩
  · unfold completeStep
    simp only [if_pos hstale]
    have hstale2 : ({ g with batchProgress := progressInc g.batchProgress } : Global).session ≠
        ({ r with inFlight := r.inFlight - 1,
                  outstanding := r.outstanding.filter (fun p => p.1 ≠ idx) } : Run).token :=
      hstale
    rw [launchNext_stale _ _ hstale2]
    exact finishIfDone_stale _ _ hstale2
  · intro err
    unfold catchStep
    simp [hstale]

/-- C1 counterexample: a concrete superseded run whose late completion event
is not a no-op.  The old single-item session is replaced (new first-item
id), the new session starts its own batch (progress `{0, 1}`), and then the
old run's completion arrives: the new list's item keeps its status, but the
unguarded progress update rewrites the new session's progress to `{1, 1}` —
so not every state-mutating callback of the superseded run re-checks the
token and no-ops. -/
theorem session_guard_counterexample :
    (let gOld := initGlobal
        [{ id := "old", pageNumber := 1, originalBase64 := "a", status := Status.pending }]
     let rOld := (handleCleanAll gOld).2.getD dummyRun
     let g2 := sessionEffect (handleCleanAll gOld).1
        [{ id := "new", pageNumber := 1, originalBase64 := "b", status := Status.pending }]
     let g3 := (handleCleanAll g2).1
     let snapOld := ((rOld.outstanding.find? (fun p => p.1 = 0)).map Prod.snd).getD dummyImage
     let g4 := (completeStep g3 rOld 0 snapOld (FetchOutcome.apiResponse true (some "img") none)).1
     g3.session ≠ rOld.token ∧
     g3.batchProgress = some ⟨0, 1⟩ ∧
     g4.batchProgress = some ⟨1, 1⟩ ∧
     g4 ≠ g3 ∧
     g4.images = g3.images) := by decide

/-- Witness for the amended session guard at a concrete superseded run. -/
theorem session_guard_amended_witness :
    (completeStep
        { images := [dummyImage], session := "new", isProcessing := true,
          batchProgress := some ⟨0, 1⟩ }
        { token := "old", indices := [0], cursor := 1, inFlight := 1,
          outstanding := [(0, dummyImage)] } 0 dummyImage FetchOutcome.badJson).1 =
      { images := [dummyImage], session := "new", isProcessing := true,
        batchProgress := some ⟨1, 1⟩ } := by
  have h := session_guard_amended
    { images := [dummyImage], session := "new", isProcessing := true,
      batchProgress := some ⟨0, 1⟩ }
    { token := "old", indices := [0], cursor := 1, inFlight := 1,
      outstanding := [(0, dummyImage)] } 0 dummyImage FetchOutcome.badJson (by decide)
  rw [h.1]
  decide

theorem mapIdx_agree {l₁ l₂ : List SlideImage} (f : Nat → SlideImage → SlideImage)
    (idx : Nat) (hlen : l₁.length = l₂.length)
    (hag : ∀ j, j ≠ idx → l₁.getD j dummyImage = l₂.getD j dummyImage) :
    ∀ j, j ≠ idx → (l₁.mapIdx f).getD j dummyImage = (l₂.mapIdx f).getD j dummyImage := by
  intro j hj
  rw [getD_mapIdx, getD_mapIdx, hlen, hag j hj]

theorem launchNext_agree (idx : Nat) {gA gB : Global} (r : Run)
    (h : AgreeExcept idx gA gB) :
    AgreeExcept idx (launchNext gA r).1 (launchNext gB r).1 ∧
    (launchNext gA r).2.cursor = (launchNext gB r).2.cursor ∧
    (launchNext gA r).2.inFlight = (launchNext gB r).2.inFlight := by
  unfold launchNext
  dsimp only
  by_cases hsA : gA.session ≠ r.token
  · have hsB : gB.session ≠ r.token := by rw [← h.sess]; exact hsA
    rw [if_pos hsA, if_pos hsB]
    exact ⟨h, rfl, rfl⟩
  · have hsB : ¬ gB.session ≠ r.token := by rw [← h.sess]; exact hsA
    rw [if_neg hsA, if_neg hsB]
    by_cases hl : (launchLoopAux maxConcurrent r.inFlight r.cursor r.indices).1.isEmpty = true
    · rw [if_pos hl, if_pos hl]
      exact ⟨h, rfl, rfl⟩
    · rw [if_neg hl, if_neg hl]
      refine ⟨⟨h.sess, h.proc, h.prog, ?_, ?_⟩, rfl, rfl⟩
      · simp [List.length_mapIdx, h.len]
      · exact mapIdx_agree _ idx h.len h.img

theorem finishIfDone_agree {idx : Nat} {gA gB : Global} {rA rB : Run}
    (h : AgreeExcept idx gA gB) (htok : rA.token = rB.token)
    (hcur : rA.cursor = rB.cursor) (hind : rA.indices = rB.indices)
    (hfl : rA.inFlight = rB.inFlight) :
    AgreeExcept idx (finishIfDone gA rA) (finishIfDone gB rB) := by
  unfold finishIfDone
  rw [h.sess, htok, hcur, hind, hfl]
  split_ifs
  · exact h
  · exact h
  · exact h
  · exact ⟨rfl, rfl, rfl, h.len, h.img⟩

/-- C4: `cleanImage` always resolves, keeps `id`/`pageNumber`/
`originalBase64` unchanged, and yields `completed` or `error`-with-message;
each enumerated failure mode ends in status `error` with its human-readable
message — a non-OK HTTP response (`请求失败: <status>`), a body failing
`JSON.parse` (`服务器返回格式错误`), a thrown non-abort error (`String(error)`),
an unsuccessful or image-less API response (`message || '处理失败'`), and the
timeout abort with the fixed timed-out message — and a failing outcome never
disturbs the batch: a completion event leaves the scheduler's cursor,
in-flight count, progress, `isProcessing` and every sibling item identical
to what any other outcome would have produced. -/
theorem error_isolation (image : SlideImage) (o : FetchOutcome) (msg : String)
    (g : Global) (r : Run) (idx j : Nat) (snap : SlideImage) (o₁ o₂ : FetchOutcome)
    (hj : j ≠ idx) :
    ((cleanImage image o).id = image.id ∧
     (cleanImage image o).pageNumber = image.pageNumber ∧
     (cleanImage image o).originalBase64 = image.originalBase64) ∧
    ((cleanImage image o).status = Status.completed ∨
      ((cleanImage image o).status = Status.error ∧ (cleanImage image o).errMsg ≠ none)) ∧
    (∀ code, cleanImage image (FetchOutcome.httpNotOk code) =
      { image with status := Status.error, errMsg := some ("请求失败: " ++ toString code) }) ∧
    cleanImage image FetchOutcome.badJson =
      { image with status := Status.error, errMsg := some "服务器返回格式错误" } ∧
    (∀ m, cleanImage image (FetchOutcome.thrownErr false m) =
      { image with status := Status.error, errMsg := some m }) ∧
    (∀ success img' m, ¬ (success = true ∧ truthyStr img' = true) →
      cleanImage image (FetchOutcome.apiResponse success img' m) =
        { image with status := Status.error, errMsg := some (strOr m "处理失败") }) ∧
    cleanImage image (FetchOutcome.thrownErr true msg) =
      { image with status := Status.error, errMsg := some "请求超时，请重试" } ∧
    (completeStep g r idx snap o₁).2.cursor = (completeStep g r idx snap o₂).2.cursor ∧
    (completeStep g r idx snap o₁).2.inFlight = (completeStep g r idx snap o₂).2.inFlight ∧
    (completeStep g r idx snap o₁).1.batchProgress =
      (completeStep g r idx snap o₂).1.batchProgress ∧
    (completeStep g r idx snap o₁).1.isProcessing =
      (completeStep g r idx snap o₂).1.isProcessing ∧
    (completeStep g r idx snap o₁).1.images.getD j dummyImage =
      (completeStep g r idx snap o₂).1.images.getD j dummyImage := by
  have hfields : ∀ o' : FetchOutcome,
      (cleanImage image o').id = image.id ∧
      (cleanImage image o').pageNumber = image.pageNumber ∧
      (cleanImage image o').originalBase64 = image.originalBase64 := by
    intro o'
    cases o' with
    | thrownErr isAbort m => by_cases hab : isAbort <;> simp [cleanImage, hab]
    | httpNotOk code => simp [cleanImage]
    | badJson => simp [cleanImage]
    | apiResponse success img m =>
      by_cases hsucc : (success && truthyStr img) = true <;> simp [cleanImage, hsucc]
  have hstatus : (cleanImage image o).status = Status.completed ∨
      ((cleanImage image o).status = Status.error ∧ (cleanImage image o).errMsg ≠ none) := by
    cases o with
    | thrownErr isAbort m => by_cases hab : isAbort <;> simp [cleanImage, hab]
    | httpNotOk code => simp [cleanImage]
    | badJson => simp [cleanImage]
    | apiResponse success img m =>
      by_cases hsucc : (success && truthyStr img) = true <;> simp [cleanImage, hsucc]
  have hhttp : ∀ code, cleanImage image (FetchOutcome.httpNotOk code) =
      { image with status := Status.error, errMsg := some ("请求失败: " ++ toString code) } :=
    fun code => rfl
  have hbad : cleanImage image FetchOutcome.badJson =
      { image with status := Status.error, errMsg := some "服务器返回格式错误" } := rfl
  have hthrown : ∀ m, cleanImage image (FetchOutcome.thrownErr false m) =
      { image with status := Status.error, errMsg := some m } := by
    intro m
    simp [cleanImage]
  have hapi : ∀ (success : Bool) (img' : Option String) (m : Option String),
      ¬ (success = true ∧ truthyStr img' = true) →
      cleanImage image (FetchOutcome.apiResponse success img' m) =
        { image with status := Status.error, errMsg := some (strOr m "处理失败") } := by
    intro success img' m hnot
    have hcond : ¬ ((success && truthyStr img') = true) := by
      rw [Bool.and_eq_true]
      exact hnot
    simp [cleanImage, hcond]
  have htimeout : cleanImage image (FetchOutcome.thrownErr true msg) =
      { image with status := Status.error, errMsg := some "请求超时，请重试" } := by
    simp [cleanImage]
  -- the two events agree everywhere but at idx
  have hthen : ∀ o' : FetchOutcome, AgreeExcept idx
      (if g.session ≠ r.token then g
       else { g with images :=
          List.mapIdx (fun i img => if i = idx then cleanImage snap o' else img) g.images })
      (if g.session ≠ r.token then g
       else { g with images :=
          List.mapIdx (fun i img => if i = idx then cleanImage snap o₂ else img) g.images }) := by
    intro o'
    by_cases hs : g.session ≠ r.token
    · rw [if_pos hs, if_pos hs]
      exact ⟨rfl, rfl, rfl, rfl, fun j hj => rfl⟩
    · rw [if_neg hs, if_neg hs]
      refine ⟨rfl, rfl, rfl, by simp [List.length_mapIdx], ?_⟩
      intro j hj
      rw [getD_mapIdx, getD_mapIdx]
      by_cases hjlen : j < g.images.length <;> simp [hjlen, hj]
  have hmain : ∀ o' : FetchOutcome,
      (completeStep g r idx snap o').2.cursor = (completeStep g r idx snap o₂).2.cursor ∧
      (completeStep g r idx snap o').2.inFlight = (completeStep g r idx snap o₂).2.inFlight ∧
      AgreeExcept idx (completeStep g r idx snap o').1 (completeStep g r idx snap o₂).1 := by
    intro o'
    unfold completeStep
    set g1A := (if g.session ≠ r.token then g
       else { g with images :=
          List.mapIdx (fun i img => if i = idx then cleanImage snap o' else img) g.images })
      with hg1A
    set g1B := (if g.session ≠ r.token then g
       else { g with images :=
          List.mapIdx (fun i img => if i = idx then cleanImage snap o₂ else img) g.images })
      with hg1B
    have hA : AgreeExcept idx g1A g1B := hthen o'
    set r1 : Run := ({ r with
      inFlight := r.inFlight - 1,
      outstanding := r.outstanding.filter (fun p => p.1 ≠ idx) } : Run) with hr1
    have hA2 : AgreeExcept idx
        { g1A with batchProgress := progressInc g1A.batchProgress }
        { g1B with batchProgress := progressInc g1B.batchProgress } :=
      ⟨hA.sess, hA.proc, by rw [hA.prog], hA.len, hA.img⟩
    have hLN := launchNext_agree idx r1 hA2
    refine ⟨?_, ?_, ?_⟩
    · exact hLN.2.1
    · exact hLN.2.2
    · exact finishIfDone_agree hLN.1
        (by rw [launchNext_snd_token, launchNext_snd_token])
        hLN.2.1
        (by rw [launchNext_snd_indices, launchNext_snd_indices])
        hLN.2.2
  exact ⟨hfields o, hstatus, hhttp, hbad, hthrown, hapi, htimeout, (hmain o₁).1,
    (hmain o₁).2.1, (hmain o₁).2.2.prog, (hmain o₁).2.2.proc, (hmain o₁).2.2.img j hj⟩

/-- Witness for C4 at a concrete two-item batch: a non-OK HTTP 500, an
API-level failure and a timeout each yield status `error` with their
messages, and item 0 failing with a timeout leaves sibling item 1 exactly
as a success for item 0 would have. -/
theorem error_isolation_witness :
    (cleanImage dummyImage (FetchOutcome.httpNotOk 500)).errMsg = some "请求失败: 500" ∧
    (cleanImage dummyImage (FetchOutcome.apiResponse false none none)).errMsg =
      some "处理失败" ∧
    (cleanImage dummyImage (FetchOutcome.thrownErr true "x")).errMsg =
      some "请求超时，请重试" ∧
    (completeStep
        { images := [dummyImage, dummyImage], session := "s", isProcessing := true,
          batchProgress := some ⟨0, 2⟩ }
        { token := "s", indices := [0, 1], cursor := 2, inFlight := 2,
          outstanding := [(0, dummyImage), (1, dummyImage)] }
        0 dummyImage (FetchOutcome.thrownErr true "x")).1.images.getD 1 dummyImage =
    (completeStep
        { images := [dummyImage, dummyImage], session := "s", isProcessing := true,
          batchProgress := some ⟨0, 2⟩ }
        { token := "s", indices := [0, 1], cursor := 2, inFlight := 2,
          outstanding := [(0, dummyImage), (1, dummyImage)] }
        0 dummyImage (FetchOutcome.apiResponse true (some "y") none)).1.images.getD 1
          dummyImage := by
  have h := error_isolation dummyImage (FetchOutcome.thrownErr true "x") "x"
    { images := [dummyImage, dummyImage], session := "s", isProcessing := true,
      batchProgress := some ⟨0, 2⟩ }
    { token := "s", indices := [0, 1], cursor := 2, inFlight := 2,
      outstanding := [(0, dummyImage), (1, dummyImage)] }
    0 1 dummyImage (FetchOutcome.thrownErr true "x")
    (FetchOutcome.apiResponse true (some "y") none) (by decide)
  refine ⟨?_, ?_, ?_, h.2.2.2.2.2.2.2.2.2.2.2⟩
  · rw [h.2.2.1 500]
    decide
  · rw [h.2.2.2.2.2.1 false none none (by decide)]
    decide
  · rw [h.2.2.2.2.2.2.1]

/-! ## C2: bounded-concurrency invariant -/

theorem launchLoopAux_spec : ∀ (fuel fl cu : Nat) (indices : List Nat),
    cu ≤ indices.length →
    ((launchLoopAux fuel fl cu indices).2.1 =
       fl + (launchLoopAux fuel fl cu indices).1.length ∧
     (launchLoopAux fuel fl cu indices).2.2 =
       cu + (launchLoopAux fuel fl cu indices).1.length ∧
     (launchLoopAux fuel fl cu indices).2.2 ≤ indices.length ∧
     indices.take (launchLoopAux fuel fl cu indices).2.2 =
       indices.take cu ++ (launchLoopAux fuel fl cu indices).1 ∧
     (fl ≤ maxConcurrent → (launchLoopAux fuel fl cu indices).2.1 ≤ maxConcurrent) ∧
     (maxConcurrent - fl ≤ fuel →
       ¬((launchLoopAux fuel fl cu indices).2.1 < maxConcurrent ∧
         (launchLoopAux fuel fl cu indices).2.2 < indices.length))) := by
  intro fuel
  induction fuel with
  | zero =>
    intro fl cu indices hcu
    simp only [launchLoopAux]
    refine ⟨rfl, rfl, hcu, by simp, fun h => h, ?_⟩
    intro hfuel hcontra
    unfold maxConcurrent at *
    omega
  | succ n ih =>
    intro fl cu indices hcu
    by_cases hcond : fl < maxConcurrent ∧ cu < indices.length
    · have hstep := ih (fl + 1) (cu + 1) indices (by omega)
      simp only [launchLoopAux, if_pos hcond]
      obtain ⟨h1, h2, h3, h4, h5, h6⟩ := hstep
      refine ⟨by simp [h1]; omega, by simp [h2]; omega, h3, ?_, ?_, ?_⟩
      · rw [h4]
        rw [List.take_succ]
        have hget : indices[cu]? = some (indices.getD cu 0) := by
          rw [List.getElem?_eq_getElem hcond.2]
          simp [List.getD_eq_getElem?_getD, List.getElem?_eq_getElem hcond.2]
        rw [hget]
        simp
      · intro hfl
        exact h5 (by omega)
      · intro hfuel
        exact h6 (by unfold maxConcurrent at *; omega)
    · simp only [launchLoopAux, if_neg hcond]
      refine ⟨rfl, rfl, hcu, by simp, fun h => h, ?_⟩
      intro hfuel hcontra
      exact hcond ⟨hcontra.1, hcontra.2⟩

theorem launchNext_inv (g : Global) (r : Run) (hc : InvCore g r) :
    Inv (launchNext g r).1 (launchNext g r).2 := by
  have hspec := launchLoopAux_spec maxConcurrent r.inFlight r.cursor r.indices hc.cursorLe
  obtain ⟨h1, h2, h3, h4, h5, h6⟩ := hspec
  have hsat0 := h6 (by omega)
  have hns : ¬ g.session ≠ r.token := by simp [hc.sess]
  unfold launchNext
  rw [if_neg hns]
  dsimp only
  by_cases hl : (launchLoopAux maxConcurrent r.inFlight r.cursor r.indices).1.isEmpty = true
  · rw [if_pos hl]
    have hlen0 : (launchLoopAux maxConcurrent r.inFlight r.cursor r.indices).1.length = 0 :=
      by simpa [List.isEmpty_iff_length_eq_zero] using hl
    refine ⟨⟨hc.sess, ?_, ?_, h3, hc.idxNodup, hc.idxLt, hc.outNodup, ?_, ?_⟩, ?_⟩
    · simpa [h1, hlen0] using hc.flEq
    · simpa [h1, hlen0] using hc.flLe
    · intro i hi
      have := hc.outSub i hi
      rw [h2, hlen0]
      simpa using this
    · intro i hi
      exact hc.procIff i hi
    · dsimp only
      intro hlt
      have h7 := not_and.mp hsat0 hlt
      omega
  · rw [if_neg hl]
    set L := (launchLoopAux maxConcurrent r.inFlight r.cursor r.indices).1 with hL
    have htake : r.indices.take (launchLoopAux maxConcurrent r.inFlight r.cursor r.indices).2.2 =
        r.indices.take r.cursor ++ L := h4
    have htakeNodup : (r.indices.take r.cursor ++ L).Nodup := by
      rw [← htake]
      exact ((r.indices.take_sublist _).nodup hc.idxNodup)
    have hLNodup : L.Nodup := (List.nodup_append.mp htakeNodup).2.1
    have hLdisj : ∀ i ∈ r.indices.take r.cursor, i ∉ L := by
      intro i hi
      exact (List.nodup_append.mp htakeNodup).2.2 hi
    have houtL : ∀ i ∈ outIdx r, i ∉ L := fun i hi => hLdisj i (hc.outSub i hi)
    have hLsub : ∀ i ∈ L, i ∈ r.indices := by
      intro i hi
      have : i ∈ r.indices.take r.cursor ++ L := List.mem_append_right _ hi
      rw [← htake] at this
      exact List.mem_of_mem_take this
    have hmapfst : (L.map (fun i =>
        (i, (List.mapIdx (fun i img =>
          if i ∈ L then { img with status := Status.processing, errMsg := none }
          else img) g.images).getD i dummyImage))).map Prod.fst = L := by
      rw [List.map_map]
      exact List.map_id' L
    refine ⟨⟨hc.sess, ?_, ?_, h3, hc.idxNodup, ?_, ?_, ?_, ?_⟩, ?_⟩
    · simp only [outIdx, List.length_append, List.length_map]
      rw [h1, hc.flEq]
    · exact h5 hc.flLe
    · intro i hi
      rw [List.length_mapIdx]
      exact hc.idxLt i hi
    · simp only [outIdx, List.map_append]
      rw [hmapfst]
      rw [List.nodup_append]
      exact ⟨hc.outNodup, hLNodup, fun i hi => houtL i hi⟩
    · intro i hi
      simp only [outIdx, List.map_append] at hi
      rw [hmapfst] at hi
      rw [htake]
      rcases List.mem_append.mp hi with hiold | hinew
      · exact List.mem_append_left _ (hc.outSub i hiold)
      · exact List.mem_append_right _ hinew
    · intro i hilen
      rw [List.length_mapIdx] at hilen
      rw [getD_mapIdx, if_pos hilen]
      simp only [outIdx, List.map_append]
      rw [hmapfst]
      by_cases hiL : i ∈ L
      · simp only [if_pos hiL]
        simp [hiL]
      · simp only [if_neg hiL]
        rw [List.mem_append]
        have hpi := hc.procIff i hilen
        constructor
        · intro hst
          exact Or.inl (hpi.mp hst)
        · intro hor
          rcases hor with hold | hnew
          · exact hpi.mpr hold
          · exact absurd hnew hiL
    · dsimp only
      intro hlt
      have h7 := not_and.mp hsat0 hlt
      omega

theorem cleanImage_status_cases (img : SlideImage) (o : FetchOutcome) :
    (cleanImage img o).status = Status.completed ∨
    (cleanImage img o).status = Status.error := by
  cases o with
  | thrownErr isAbort m => by_cases hab : isAbort <;> simp [cleanImage, hab]
  | httpNotOk code => simp [cleanImage]
  | badJson => simp [cleanImage]
  | apiResponse success img' m =>
    by_cases hsucc : (success && truthyStr img') = true <;> simp [cleanImage, hsucc]

theorem filter_fst_ne_length (idx : Nat) :
    ∀ (out : List (Nat × SlideImage)), (out.map Prod.fst).Nodup →
    idx ∈ out.map Prod.fst →
    (out.filter (fun p => p.1 ≠ idx)).length + 1 = out.length := by
  intro out
  induction out with
  | nil => intro _ hmem; simp at hmem
  | cons a t ih =>
    intro hnd hmem
    rw [List.map_cons, List.nodup_cons] at hnd
    by_cases ha : a.1 = idx
    · have hrest : ∀ p ∈ t, ¬ p.1 ≠ idx → False := by
        intro p hp hne
        have hpidx : p.1 = idx := by
          by_contra hcon
          exact hne hcon
        exact hnd.1 (ha ▸ hpidx ▸ List.mem_map_of_mem Prod.fst hp)
    -- head dropped, tail kept whole
      have hhead : (decide (a.1 ≠ idx)) = false := by simp [ha]
      rw [List.filter_cons]
      rw [if_neg (by simp [ha])]
      have hkeep : t.filter (fun p => p.1 ≠ idx) = t := by
        apply List.filter_eq_self.mpr
        intro p hp
        by_contra hcon
        exact hrest p hp (by simpa using hcon)
      rw [hkeep]
      simp
    · have hmem' : idx ∈ t.map Prod.fst := by
        rcases List.mem_cons.mp hmem with h1 | h2
        · exact absurd h1.symm ha
        · exact h2
      rw [List.filter_cons, if_pos (by simpa using ha)]
      rw [List.length_cons]
      rw [ih hnd.2 hmem']
      simp

theorem outIdx_filter (out : List (Nat × SlideImage)) (idx : Nat) :
    (out.filter (fun p => p.1 ≠ idx)).map Prod.fst =
      (out.map Prod.fst).filter (fun i => i ≠ idx) :=
  (@List.filter_map _ _ (fun i => decide (i ≠ idx)) Prod.fst out).symm

theorem finishIfDone_inv (g : Global) (r : Run) (h : Inv g r) :
    Inv (finishIfDone g r) r := by
  have hp := finishIfDone_preserved g r
  refine ⟨⟨?_, h.flEq, h.flLe, h.cursorLe, h.idxNodup, ?_, h.outNodup, h.outSub, ?_⟩, h.sat⟩
  · rw [hp.2, h.sess]
  · rw [hp.1]; exact h.idxLt
  · rw [hp.1]; exact h.procIff

theorem completeStep_inv (g : Global) (r : Run) (idx : Nat) (snap : SlideImage)
    (o : FetchOutcome) (hInv : Inv g r) (hmem : idx ∈ outIdx r) :
    Inv (completeStep g r idx snap o).1 (completeStep g r idx snap o).2 := by
  have hc := hInv.toInvCore
  have hidxlt : idx < g.images.length :=
    hc.idxLt idx (List.mem_of_mem_take (hc.outSub idx hmem))
  have hns : ¬ g.session ≠ r.token := by simp [hc.sess]
  unfold completeStep
  dsimp only
  rw [if_neg hns]
  apply finishIfDone_inv
  apply launchNext_inv
  have hfl : (r.outstanding.filter (fun p => p.1 ≠ idx)).length + 1 =
      r.outstanding.length :=
    filter_fst_ne_length idx r.outstanding hc.outNodup hmem
  refine ⟨hc.sess, ?_, ?_, hc.cursorLe, hc.idxNodup, ?_, ?_, ?_, ?_⟩
  · dsimp only
    have := hc.flEq
    omega
  · dsimp only
    have := hc.flLe
    omega
  · intro i hi
    rw [List.length_mapIdx]
    exact hc.idxLt i hi
  · show ((r.outstanding.filter (fun p => p.1 ≠ idx)).map Prod.fst).Nodup
    rw [outIdx_filter]
    exact (List.filter_sublist _).nodup hc.outNodup
  · intro i hi
    show i ∈ r.indices.take r.cursor
    have hi' : i ∈ outIdx r := by
      rw [outIdx, outIdx_filter] at hi
      exact List.mem_of_mem_filter hi
    exact hc.outSub i hi'
  · intro i hilen
    rw [List.length_mapIdx] at hilen
    rw [getD_mapIdx, if_pos hilen]
    show _ ↔ i ∈ (r.outstanding.filter (fun p => p.1 ≠ idx)).map Prod.fst
    rw [outIdx_filter]
    by_cases hieq : i = idx
    · subst hieq
      constructor
      · intro hst
        have hst' : (cleanImage snap o).status = Status.processing := by
          simpa using hst
        rcases cleanImage_status_cases snap o with h1 | h1 <;> rw [h1] at hst' <;>
          simp at hst'
      · intro hmem'
        have := List.of_mem_filter hmem'
        simp at this
    · simp only [if_neg hieq]
      have hpi := hc.procIff i hilen
      rw [hpi]
      constructor
      · intro h1
        exact List.mem_filter.mpr ⟨h1, by simpa using hieq⟩
      · intro h1
        exact List.mem_of_mem_filter h1

theorem runTrace_inv : ∀ (trace : List (Nat × FetchOutcome)) (g : Global) (r : Run)
    (g' : Global) (r' : Run), Inv g r → runTrace (g, r) trace = some (g', r') →
    Inv g' r' := by
  intro trace
  induction trace with
  | nil =>
    intro g r g' r' hInv h
    simp only [runTrace, Option.some.injEq, Prod.mk.injEq] at h
    rw [← h.1, ← h.2]
    exact hInv
  | cons e rest ih =>
    intro g r g' r' hInv h
    obtain ⟨idx, o⟩ := e
    cases hfind : r.outstanding.find? (fun p => p.1 = idx) with
    | none =>
      simp only [runTrace, hfind] at h
      exact absurd h (by simp)
    | some p =>
      simp only [runTrace, hfind] at h
      have hp1 : p.1 = idx := by
        have := List.find?_some hfind
        simpa using this
      have hpmem : p ∈ r.outstanding := List.mem_of_find?_eq_some hfind
      have hmem : idx ∈ outIdx r := by
        rw [outIdx, ← hp1]
        exact List.mem_map_of_mem _ hpmem
      exact ih _ _ _ _ (completeStep_inv g r idx p.2 o hInv hmem) h

theorem mem_indicesToProcess (images : List SlideImage) (i : Nat) :
    i ∈ indicesToProcess images ↔
      i < images.length ∧ (images.getD i dummyImage).status ≠ Status.completed ∧
        (images.getD i dummyImage).status ≠ Status.processing := by
  unfold indicesToProcess
  rw [List.mem_map]
  constructor
  · rintro ⟨p, hp, rfl⟩
    rw [List.mem_filter] at hp
    obtain ⟨hmem, hcond⟩ := hp
    rw [List.mem_enum_iff_getElem?] at hmem
    have hlt : p.1 < images.length := by
      by_contra hcon
      rw [List.getElem?_eq_none (by omega)] at hmem
      cases hmem
    have hval : images.getD p.1 dummyImage = p.2 := by
      rw [List.getD_eq_getElem?_getD, hmem]
      rfl
    simp only [decide_eq_true_eq] at hcond
    rw [hval]
    exact ⟨hlt, hcond⟩
  · rintro ⟨hlt, hc, hp2⟩
    refine ⟨(i, images.getD i dummyImage), ?_, rfl⟩
    rw [List.mem_filter]
    constructor
    · rw [List.mem_enum_iff_getElem?]
      simp [List.getD_eq_getElem?_getD, List.getElem?_eq_getElem hlt]
    · simpa using And.intro hc hp2

theorem indicesToProcess_nodup (images : List SlideImage) :
    (indicesToProcess images).Nodup := by
  have h1 : (indicesToProcess images).Sublist (images.enum.map Prod.fst) := by
    unfold indicesToProcess
    exact (List.filter_sublist images.enum).map Prod.fst
  rw [List.enum_map_fst] at h1
  exact h1.nodup (List.nodup_range _)

theorem markQueued_getD (images : List SlideImage) (idxs : List Nat) (i : Nat)
    (hlt : i < images.length) :
    (markQueued images idxs).getD i dummyImage =
      if i ∈ idxs then
        (if (images.getD i dummyImage).status = Status.processing then
          images.getD i dummyImage
         else { images.getD i dummyImage with status := Status.queued, errMsg := none })
      else images.getD i dummyImage := by
  unfold markQueued
  rw [getD_mapIdx, if_pos hlt]

theorem markQueued_length (images : List SlideImage) (idxs : List Nat) :
    (markQueued images idxs).length = images.length := by
  unfold markQueued
  exact List.length_mapIdx

theorem handleCleanAll_inv (g : Global)
    (hnp : ∀ img ∈ g.images, img.status ≠ Status.processing)
    (g1 : Global) (r1 : Run) (h : handleCleanAll g = (g1, some r1)) : Inv g1 r1 := by
  unfold handleCleanAll at h
  dsimp only at h
  by_cases hlen : (indicesToProcess g.images).length = 0
  · rw [if_pos hlen] at h
    exact absurd (congrArg Prod.snd h) (by simp)
  · rw [if_neg hlen] at h
    injection h with h1 h2
    have h2' := Option.some.inj h2
    rw [← h1, ← h2']
    apply launchNext_inv
    refine ⟨rfl, rfl, Nat.zero_le _, Nat.zero_le _, indicesToProcess_nodup g.images,
      ?_, List.nodup_nil, ?_, ?_⟩
    · intro i hi
      dsimp only
      rw [markQueued_length]
      exact ((mem_indicesToProcess g.images i).mp hi).1
    · intro i hi
      simp [outIdx] at hi
    · intro i hilen
      dsimp only at hilen ⊢
      rw [markQueued_length] at hilen
      constructor
      · intro hst
        exfalso
        rw [markQueued_getD g.images _ i hilen] at hst
        by_cases hiIn : i ∈ indicesToProcess g.images
        · rw [if_pos hiIn] at hst
          have hne := ((mem_indicesToProcess g.images i).mp hiIn).2.2
          rw [if_neg hne] at hst
          simp at hst
        · rw [if_neg hiIn] at hst
          have hmem : g.images.getD i dummyImage ∈ g.images := by
            rw [List.getD_eq_getElem?_getD, List.getElem?_eq_getElem hilen]
            exact List.getElem_mem hilen
          exact hnp _ hmem hst
      · intro hmem
        simp [outIdx] at hmem

theorem countP_eq_range (l : List SlideImage) (P : SlideImage → Bool) :
    l.countP P = ((List.range l.length).filter (fun i => P (l.getD i dummyImage))).length := by
  induction l with
  | nil => simp
  | cons a t ih =>
    rw [List.countP_cons, List.length_cons, List.range_succ_eq_map, List.filter_cons]
    have hcomp : List.filter (fun i => P ((a :: t).getD i dummyImage))
        ((List.range t.length).map Nat.succ) =
        (List.filter (fun i => P (t.getD i dummyImage)) (List.range t.length)).map
          Nat.succ := by
      rw [List.filter_map]
      congr 1
    rw [hcomp]
    by_cases hpa : P ((a :: t).getD 0 dummyImage) = true
    · rw [if_pos hpa]
      rw [List.length_cons, List.length_map, ← ih]
      have hpa' : P a = true := hpa
      simp [hpa']
    · rw [if_neg hpa]
      rw [List.length_map, ← ih]
      have hpa' : ¬ P a = true := hpa
      simp [hpa']

theorem countP_processing_eq (l : List SlideImage) (S : List Nat) (hnd : S.Nodup)
    (hlt : ∀ i ∈ S, i < l.length)
    (hiff : ∀ i, i < l.length →
      (((l.getD i dummyImage).status = Status.processing) ↔ i ∈ S)) :
    processingCount l = S.length := by
  unfold processingCount
  rw [countP_eq_range]
  have hfc : (List.range l.length).filter
      (fun i => decide ((l.getD i dummyImage).status = Status.processing)) =
      (List.range l.length).filter (fun i => decide (i ∈ S)) := by
    apply List.filter_congr
    intro i hi
    rw [List.mem_range] at hi
    have hx := hiff i hi
    rw [List.getD_eq_getElem?_getD] at hx
    simp [hx]
  rw [hfc]
  have h1 : ((List.range l.length).filter (fun i => decide (i ∈ S))).Nodup :=
    (List.filter_sublist _).nodup (List.nodup_range _)
  have h2 : ((List.range l.length).filter (fun i => decide (i ∈ S))).toFinset =
      S.toFinset := by
    ext x
    simp only [List.mem_toFinset, List.mem_filter, List.mem_range, decide_eq_true_eq]
    constructor
    · rintro ⟨_, hx⟩
      exact hx
    · intro hx
      exact ⟨hlt x hx, hx⟩
  rw [← List.toFinset_card_of_nodup h1, ← List.toFinset_card_of_nodup hnd, h2]

/-- C2: in a batch run of `handleCleanAll` started on a list with no item
already `processing` (no concurrent `handleCleanSingle`), after any valid
interleaving of completion events the in-flight counter is at most
`maxConcurrent = 3`, at most 3 items hold `processing` simultaneously, and
the pool is saturated: the counter is below 3 only once the cursor has
consumed the whole selection (each completion refills from the pending
cursor while in-flight < 3 and items remain). -/
theorem runAll_bounded_concurrency (g g1 g' : Global) (r1 r' : Run)
    (trace : List (Nat × FetchOutcome))
    (hnp : ∀ img ∈ g.images, img.status ≠ Status.processing)
    (hstart : handleCleanAll g = (g1, some r1))
    (hrun : runTrace (g1, r1) trace = some (g', r')) :
    r'.inFlight ≤ maxConcurrent ∧
    processingCount g'.images ≤ maxConcurrent ∧
    (r'.inFlight < maxConcurrent → r'.cursor = r'.indices.length) := by
  have hInv := runTrace_inv trace g1 r1 g' r' (handleCleanAll_inv g hnp g1 r1 hstart) hrun
  refine ⟨hInv.flLe, ?_, hInv.sat⟩
  have hcount := countP_processing_eq g'.images (outIdx r') hInv.outNodup
    (fun i hi => hInv.idxLt i (List.mem_of_mem_take (hInv.outSub i hi)))
    hInv.procIff
  rw [hcount]
  have h1 := hInv.flEq
  have h2 := hInv.flLe
  simp only [outIdx, List.length_map]
  omega

/-- Witness for C2 on the concrete four-item batch. -/
theorem runAll_bounded_concurrency_witness :
    w2Final.2.inFlight ≤ maxConcurrent ∧
    processingCount w2Final.1.images ≤ maxConcurrent ∧
    (w2Final.2.inFlight < maxConcurrent → w2Final.2.cursor = w2Final.2.indices.length) :=
  runAll_bounded_concurrency (initGlobal w2Images) w2Start.1 w2Final.1
    (w2Start.2.getD dummyRun) w2Final.2 w2Trace
    (by decide) (by decide) (by decide)

/-- C3: when `handleCleanAll` starts, the selection is exactly the indices
whose status is neither `completed` nor `processing`; every selected item is
marked `queued` with its error cleared while unselected items are untouched;
`batchProgress` records `total = |selection|`, `done = 0` and `isProcessing`
is set; and with no qualifying item `handleCleanAll` returns the state
unchanged and starts no run. -/
theorem runAll_selection (g : Global) :
    (∀ i, i ∈ indicesToProcess g.images ↔
      i < g.images.length ∧ (g.images.getD i dummyImage).status ≠ Status.completed ∧
        (g.images.getD i dummyImage).status ≠ Status.processing) ∧
    (∀ i, i ∈ indicesToProcess g.images →
      (markQueued g.images (indicesToProcess g.images)).getD i dummyImage =
        { g.images.getD i dummyImage with status := Status.queued, errMsg := none }) ∧
    (∀ i, i < g.images.length → i ∉ indicesToProcess g.images →
      (markQueued g.images (indicesToProcess g.images)).getD i dummyImage =
        g.images.getD i dummyImage) ∧
    (indicesToProcess g.images ≠ [] →
      (handleCleanAll g).1.batchProgress =
        some ⟨0, (indicesToProcess g.images).length⟩ ∧
      (handleCleanAll g).1.isProcessing = true) ∧
    (indicesToProcess g.images = [] → handleCleanAll g = (g, none)) := by
  refine ⟨fun i => mem_indicesToProcess g.images i, ?_, ?_, ?_, ?_⟩
  · intro i hi
    have hchar := (mem_indicesToProcess g.images i).mp hi
    rw [markQueued_getD g.images _ i hchar.1, if_pos hi, if_neg hchar.2.2]
  · intro i hlt hni
    rw [markQueued_getD g.images _ i hlt, if_neg hni]
  · intro hne
    have hlen : ¬ (indicesToProcess g.images).length = 0 := by
      simpa [List.length_eq_zero] using hne
    unfold handleCleanAll
    dsimp only
    rw [if_neg hlen]
    constructor
    · rw [launchNext_fst_batchProgress]
    · rw [launchNext_fst_isProcessing]
  · intro hnil
    have hlen : (indicesToProcess g.images).length = 0 := by simp [hnil]
    unfold handleCleanAll
    dsimp only
    rw [if_pos hlen]

/-- Witness for C3 on a two-item list (one already completed, one pending):
only the pending index is selected and queued, the completed item is left
alone, and progress starts at `{0, 1}`. -/
theorem runAll_selection_witness :
    (1 ∈ indicesToProcess w3Images ∧ 0 ∉ indicesToProcess w3Images) ∧
    (markQueued w3Images (indicesToProcess w3Images)).getD 1 dummyImage =
      { w3Images.getD 1 dummyImage with status := Status.queued, errMsg := none } ∧
    (markQueued w3Images (indicesToProcess w3Images)).getD 0 dummyImage =
      w3Images.getD 0 dummyImage ∧
    (handleCleanAll
        { images := w3Images, session := "c1", isProcessing := false,
          batchProgress := none }).1.batchProgress = some ⟨0, 1⟩ := by
  have h := runAll_selection
    { images := w3Images, session := "c1", isProcessing := false, batchProgress := none }
  refine ⟨⟨by decide, by decide⟩, h.2.1 1 (by decide), h.2.2.1 0 (by decide) (by decide), ?_⟩
  have h4 := (h.2.2.2.1 (by decide)).1
  rw [h4]
  decide

end PptCleaner
